import Mathlib

/-!
A shallow embedding of the holdings reconciliation, history update, derived
metrics, and extraction sanitization logic of the wealth-tracking dashboard
(src/types.ts and src/services/geminiService.ts), together with theorems
settling the specification claims about them.

JS numbers are embedded as rationals, timestamps, ids and dates as strings,
exactly as the source stores them.  Fallible or dynamic behavior (service
responses, JSON parsing outcomes, uuid generation) is passed in explicitly.
-/

/-- Fixed asset category enumeration (src/types.ts, enum AssetCategory). -/
inductive AssetCategory where
  | stock
  | fund
  | bond
  | crypto
  | cash
  | other
  deriving DecidableEq

/-- An asset holding (src/types.ts, interface Asset). -/
structure Asset where
  id : String
  name : String
  category : AssetCategory
  amount : ℚ
  returnRate : ℚ
  currency : String
  lastUpdated : String
  deriving DecidableEq

/-- One point of the net-worth history series (src/types.ts, interface
HistoryPoint). -/
structure HistoryPoint where
  date : String
  totalNetWorth : ℚ
  totalReturnRate : ℚ
  deriving DecidableEq

/-- The AI analysis narrative (src/types.ts, interface AnalysisResponse). -/
structure AnalysisResponse where
  assetAllocationAnalysis : String
  investmentAdvice : String
  adjustmentSuggestions : String
  deriving DecidableEq

/-- A TS Partial Asset record, as typed for the output of
parseHoldingsScreenshot and consumed by the merge inside handleFileUpload:
every field may be absent. -/
structure AssetPatch where
  id : Option String
  name : Option String
  category : Option AssetCategory
  amount : Option ℚ
  returnRate : Option ℚ
  currency : Option String
  lastUpdated : Option String
  deriving DecidableEq

/-- A JS object with every Asset field undefined.  The source builds new
assets by spreading an extracted record into a fresh object and casting with
an unchecked as-Asset cast; a field absent from the record is undefined at
runtime, which the Asset type cannot hold, so this sentinel stands for the
undefined fields.  The only producer of extracted records in the source
(the sanitization in parseHoldingsScreenshot) populates every field, so no
sentinel field is ever observable there. -/
def undefinedJsAsset : Asset :=
  { id := "undefined", name := "undefined", category := AssetCategory.other,
    amount := 0, returnRate := 0, currency := "undefined",
    lastUpdated := "undefined" }

/-- JS object spread of a partial record over a base object: a field present
in the record wins, an absent field keeps the base value. -/
def spreadInto (base : Asset) (e : AssetPatch) : Asset :=
  { id := e.id.getD base.id,
    name := e.name.getD base.name,
    category := e.category.getD base.category,
    amount := e.amount.getD base.amount,
    returnRate := e.returnRate.getD base.returnRate,
    currency := e.currency.getD base.currency,
    lastUpdated := e.lastUpdated.getD base.lastUpdated }

/-- The body of the merge for a record whose name guard passed
(src/services/geminiService.ts, handleFileUpload merge logic): find the first
asset with exactly the extracted name; if found, overwrite it in place with
the spread of the record over it and a fresh lastUpdated; otherwise append a
new asset built from the record with a freshly generated id. -/
def mergeNamed (now fid n : String) (assets : List Asset) (e : AssetPatch) :
    List Asset :=
  match assets.findIdx? (fun a => a.name == n) with
  | some i =>
      assets.set i
        { spreadInto (assets.getD i undefinedJsAsset) e with lastUpdated := now }
  | none =>
      assets ++ [{ spreadInto undefinedJsAsset e with id := fid, lastUpdated := now }]

/-- Processing of one extracted record by the merge in handleFileUpload: a
record with a falsy (absent or empty) name is skipped, otherwise the named
merge runs.  The argument fid is the uuid that would be drawn if this record
inserts a new asset. -/
def mergeOne (now fid : String) (assets : List Asset) (e : AssetPatch) :
    List Asset :=
  match e.name with
  | none => assets
  | some n => if n = "" then assets else mergeNamed now fid n assets e

/-- One step of the merge fold, threading a counter of uuids drawn so far;
uuid k models the k-th value returned by crypto.randomUUID.  An insert, and
only an insert, grows the list, so the counter advances exactly when the
length grew. -/
def mergeStep (now : String) (uuid : Nat → String)
    (st : List Asset × Nat) (e : AssetPatch) : List Asset × Nat :=
  let r := mergeOne now (uuid st.2) st.1 e
  (r, if r.length = st.1.length then st.2 else st.2 + 1)

/-- The whole merge of handleFileUpload: fold the extracted records, in
order, over the existing asset list. -/
def mergeMany (now : String) (uuid : Nat → String) (assets : List Asset)
    (extracted : List AssetPatch) : List Asset :=
  (extracted.foldl (mergeStep now uuid) (assets, 0)).1

/-- JS String.startsWith, used by the history update of the source. -/
def jsStartsWith (s pre : String) : Bool :=
  pre.data.isPrefixOf s.data

/-- The history update of handleFileUpload: if some stored point has a date
starting with the current day string, overwrite the first such point in
place, otherwise append the new point. -/
def updateHistory (todayStr : String) (p : HistoryPoint)
    (prev : List HistoryPoint) : List HistoryPoint :=
  match prev.findIdx? (fun h => jsStartsWith h.date todayStr) with
  | some i => prev.set i p
  | none => prev ++ [p]

/-- Derived metric (src/services/geminiService.ts, App computed values):
total net worth as a left fold of the amounts, exactly as the reduce in the
source. -/
def totalNetWorth (assets : List Asset) : ℚ :=
  assets.foldl (fun sum a => sum + a.amount) 0

/-- Derived metric: total absolute return. -/
def totalReturn (assets : List Asset) : ℚ :=
  assets.foldl (fun sum a => sum + a.amount * (a.returnRate / 100)) 0

/-- Derived metric: weighted return rate, zero unless the total net worth is
positive. -/
def totalReturnRate (assets : List Asset) : ℚ :=
  if 0 < totalNetWorth assets then
    totalReturn assets / totalNetWorth assets * 100
  else 0

/-- The raw sum of extracted amounts used for the history point of the day,
with a falsy (absent) amount counted as zero, as in the reduce of the
source. -/
def sumExtractedAmounts (extracted : List AssetPatch) : ℚ :=
  extracted.foldl (fun s a => s + a.amount.getD 0) 0

/-- One record of the JSON array parsed from the model response, before
sanitization.  A none in a string field models a missing (or, for name and
currency, otherwise falsy) value; a none in a numeric field models a value
whose JS Number coercion is NaN, so that the source expression
Number(v) or-else 0 is embedded as Option.getD 0. -/
structure RawItem where
  name : Option String
  category : Option String
  amount : Option ℚ
  returnRate : Option ℚ
  currency : Option String
  deriving DecidableEq

/-- Membership test of a raw category string in the fixed enumeration
(Object.values(AssetCategory).includes in the source), returning the decoded
category when it is a member. -/
def categoryOfString : String → Option AssetCategory
  | "Stock" => some AssetCategory.stock
  | "Fund" => some AssetCategory.fund
  | "Bond" => some AssetCategory.bond
  | "Crypto" => some AssetCategory.crypto
  | "Cash" => some AssetCategory.cash
  | "Other" => some AssetCategory.other
  | _ => none

/-- JS v or-else d for string values: the default replaces a missing or empty
string. -/
def jsOrDefault (v : Option String) (d : String) : String :=
  match v with
  | none => d
  | some s => if s = "" then d else s

/-- The sanitization map of parseHoldingsScreenshot
(src/services/geminiService.ts): names default to the placeholder, unknown
categories map to Other, numeric fields coerce to 0, currency defaults to
CNY, lastUpdated is stamped with the current time. -/
def sanitizeItem (now : String) (r : RawItem) : AssetPatch :=
  { id := none,
    name := some (jsOrDefault r.name "未知资产"),
    category := some ((r.category.bind categoryOfString).getD AssetCategory.other),
    amount := some (r.amount.getD 0),
    returnRate := some (r.returnRate.getD 0),
    currency := some (jsOrDefault r.currency "CNY"),
    lastUpdated := some now }

/-- The extraction client after the model call returned (the call itself
throwing propagates to the caller and is modeled there): an absent or empty
response text yields the empty list, a text whose JSON parse or mapping
fails (parsed = none) yields the empty list, otherwise the sanitized
records. -/
def parseHoldingsScreenshot (now : String) (text : Option String)
    (parsed : Option (List RawItem)) : List AssetPatch :=
  match text with
  | none => []
  | some t =>
      if t = "" then []
      else
        match parsed with
        | none => []
        | some items => items.map (sanitizeItem now)

/-- The in-memory application state owned by the App component. -/
structure AppState where
  assets : List Asset
  history : List HistoryPoint
  analysis : Option AnalysisResponse
  deriving DecidableEq

/-- The user-facing alert raised by handleFileUpload. -/
inductive UploadNotice where
  | uploadSucceeded
  | uploadFailed
  deriving DecidableEq

/-- The upload handler after the file was read: on a thrown extraction call
the state is untouched and the failure alert shows; otherwise the merge runs
over the extracted records, the history point for today is written with the
pre-merge total plus the raw extracted sum and the pre-merge (lagging)
return rate, and the success alert shows. -/
def handleFileUpload (now todayStr : String) (uuid : Nat → String)
    (st : AppState) (outcome : Except String (List AssetPatch)) :
    AppState × UploadNotice :=
  match outcome with
  | Except.error _ => (st, UploadNotice.uploadFailed)
  | Except.ok extracted =>
      ({ st with
          assets := mergeMany now uuid st.assets extracted,
          history := updateHistory todayStr
            { date := todayStr,
              totalNetWorth := totalNetWorth st.assets + sumExtractedAmounts extracted,
              totalReturnRate := totalReturnRate st.assets }
            st.history },
       UploadNotice.uploadSucceeded)

/-- The user-facing alert raised by handleRunAnalysis; quiet means no alert
was shown. -/
inductive AnalysisNotice where
  | quiet
  | emptyHoldings
  | analysisFailed
  deriving DecidableEq

/-- The analysis handler: with an empty asset list it alerts and returns
before any service call (the Bool records whether the service was called);
otherwise a successful call replaces the stored analysis and a thrown call
alerts and leaves it untouched. -/
def handleRunAnalysis (st : AppState)
    (outcome : Except String AnalysisResponse) :
    AppState × AnalysisNotice × Bool :=
  if st.assets.length = 0 then (st, AnalysisNotice.emptyHoldings, false)
  else
    match outcome with
    | Except.ok r => ({ st with analysis := some r }, AnalysisNotice.quiet, true)
    | Except.error _ => (st, AnalysisNotice.analysisFailed, true)

/-- The per-record gap between the contribution of a record to the raw
extracted-amount sum used for the history point and the change it actually
makes to the total net worth.  A skipped record contributes its amount
without changing the list; an in-place update of an asset with a present
amount leaves a gap equal to the prior amount of the updated asset; an
update without an amount and an insert leave no gap. -/
def stepDrift (now fid : String) (assets : List Asset) (e : AssetPatch) : ℚ :=
  e.amount.getD 0 - (totalNetWorth (mergeOne now fid assets e) - totalNetWorth assets)

/-- The accumulated gap over a batch of extracted records, instrumenting the
merge fold. -/
def mergeDrift (now : String) (uuid : Nat → String) :
    List Asset × Nat → List AssetPatch → ℚ
  | _, [] => 0
  | st, e :: rest =>
      stepDrift now (uuid st.2) st.1 e +
        mergeDrift now uuid (mergeStep now uuid st e) rest

/-- Sample asset used by concrete witnesses. -/
def demoAsset (nm : String) (amt rate : ℚ) : Asset :=
  { id := "id-" ++ nm, name := nm, category := AssetCategory.fund,
    amount := amt, returnRate := rate, currency := "CNY", lastUpdated := "t0" }

/-- Sample extracted record with only a name and an amount, used by concrete
witnesses. -/
def namedAmountPatch (nm : String) (amt : ℚ) : AssetPatch :=
  { id := none, name := some nm, category := none, amount := some amt,
    returnRate := none, currency := none, lastUpdated := none }

/-! ### General list and fold lemmas -/

theorem foldl_add_map {α : Type} (f : α → ℚ) (l : List α) (s : ℚ) :
    l.foldl (fun acc a => acc + f a) s = s + (l.map f).sum := by
  induction l generalizing s with
  | nil => simp
  | cons x xs ih => simp [ih]; ring

theorem sum_set_rat :
    ∀ (l : List ℚ) (i : Nat) (a b : ℚ), l[i]? = some a →
      (l.set i b).sum = l.sum - a + b := by
  intro l
  induction l with
  | nil => intro i a b h; simp at h
  | cons x xs ih =>
      intro i a b h
      cases i with
      | zero =>
          simp only [List.getElem?_cons_zero, Option.some.injEq] at h
          subst h
          simp [List.set]
          ring
      | succ j =>
          simp only [List.getElem?_cons_succ] at h
          simp [List.set, ih j a b h]
          ring

theorem set_getElem?_same :
    ∀ (l : List α) (i : Nat) (a : α), l[i]? = some a → l.set i a = l := by
  intro l
  induction l with
  | nil => intro i a h; simp at h
  | cons x xs ih =>
      intro i a h
      cases i with
      | zero =>
          simp only [List.getElem?_cons_zero, Option.some.injEq] at h
          simp [List.set, h]
      | succ j =>
          simp only [List.getElem?_cons_succ] at h
          simp [List.set, ih j a h]

theorem isPrefixOf_self (l : List Char) : l.isPrefixOf l = true := by
  induction l with
  | nil => rfl
  | cons x xs ih => simp [List.isPrefixOf, ih]

theorem eq_of_isPrefixOf_of_length_le :
    ∀ (l₁ l₂ : List Char), l₁.isPrefixOf l₂ = true → l₂.length ≤ l₁.length →
      l₁ = l₂ := by
  intro l₁
  induction l₁ with
  | nil =>
      intro l₂ _ hlen
      cases l₂ with
      | nil => rfl
      | cons y ys => simp at hlen
  | cons x xs ih =>
      intro l₂ hp hlen
      cases l₂ with
      | nil => simp [List.isPrefixOf] at hp
      | cons y ys =>
          simp only [List.isPrefixOf, Bool.and_eq_true, beq_iff_eq] at hp
          simp only [List.length_cons, Nat.add_le_add_iff_right] at hlen
          rw [hp.1, ih ys hp.2 hlen]

theorem findIdx?_congr_mem {α : Type} :
    ∀ {l : List α} {p q : α → Bool}, (∀ x ∈ l, p x = q x) →
      l.findIdx? p = l.findIdx? q := by
  intro l
  induction l with
  | nil => intro p q _; rfl
  | cons x xs ih =>
      intro p q h
      simp only [List.findIdx?_cons, Nat.zero_add, List.findIdx?_start_succ]
      rw [h x (List.mem_cons_self x xs),
        ih (fun y hy => h y (List.mem_cons_of_mem x hy))]

/-! ### Merge branch lemmas -/

theorem mergeOne_skip (now fid : String) (assets : List Asset) (e : AssetPatch)
    (h : e.name = none ∨ e.name = some "") :
    mergeOne now fid assets e = assets := by
  rcases h with h | h <;> simp [mergeOne, h]

theorem mergeOne_named (now fid n : String) (assets : List Asset)
    (e : AssetPatch) (hn : e.name = some n) (hne : n ≠ "") :
    mergeOne now fid assets e = mergeNamed now fid n assets e := by
  simp [mergeOne, hn, hne]

theorem mergeNamed_update (now fid n : String) (assets : List Asset)
    (e : AssetPatch) (i : Nat)
    (h : assets.findIdx? (fun a => a.name == n) = some i) :
    mergeNamed now fid n assets e =
      assets.set i
        { spreadInto (assets.getD i undefinedJsAsset) e with lastUpdated := now } := by
  unfold mergeNamed
  rw [h]

theorem mergeNamed_insert (now fid n : String) (assets : List Asset)
    (e : AssetPatch)
    (h : assets.findIdx? (fun a => a.name == n) = none) :
    mergeNamed now fid n assets e =
      assets ++ [{ spreadInto undefinedJsAsset e with id := fid, lastUpdated := now }] := by
  unfold mergeNamed
  rw [h]

theorem mergeStep_fst (now : String) (uuid : Nat → String)
    (st : List Asset × Nat) (e : AssetPatch) :
    (mergeStep now uuid st e).1 = mergeOne now (uuid st.2) st.1 e := rfl

theorem totalNetWorth_eq_sum (l : List Asset) :
    totalNetWorth l = (l.map Asset.amount).sum := by
  simpa [totalNetWorth] using foldl_add_map Asset.amount l 0

theorem totalReturn_eq_sum (l : List Asset) :
    totalReturn l = (l.map (fun a => a.amount * (a.returnRate / 100))).sum := by
  simpa [totalReturn] using
    foldl_add_map (fun a : Asset => a.amount * (a.returnRate / 100)) l 0

theorem sumExtractedAmounts_eq_sum (l : List AssetPatch) :
    sumExtractedAmounts l = (l.map (fun e => e.amount.getD 0)).sum := by
  simpa [sumExtractedAmounts] using
    foldl_add_map (fun e : AssetPatch => e.amount.getD 0) l 0

theorem totalNetWorth_append_single (l : List Asset) (a : Asset) :
    totalNetWorth (l ++ [a]) = totalNetWorth l + a.amount := by
  simp [totalNetWorth_eq_sum]

theorem totalNetWorth_set (l : List Asset) (i : Nat) (a x : Asset)
    (h : l[i]? = some a) :
    totalNetWorth (l.set i x) = totalNetWorth l - a.amount + x.amount := by
  rw [totalNetWorth_eq_sum, totalNetWorth_eq_sum, List.map_set]
  exact sum_set_rat _ i a.amount x.amount (by simp [h])

/-! ### Claim C5: derived metrics -/

/-- C5: for every asset list the derived total net worth equals the sum of
the asset amounts, the total absolute return equals the sum of amount times
returnRate over 100, and the derived weighted return rate equals total
return divided by total net worth times 100 when the net worth is positive
and is exactly 0 when the net worth is zero, regardless of the individual
return rates. -/
theorem c5_derived_metrics (assets : List Asset) :
    totalNetWorth assets = (assets.map Asset.amount).sum
  ∧ totalReturn assets =
      (assets.map (fun a => a.amount * (a.returnRate / 100))).sum
  ∧ (0 < totalNetWorth assets →
      totalReturnRate assets = totalReturn assets / totalNetWorth assets * 100)
  ∧ (totalNetWorth assets = 0 → totalReturnRate assets = 0) := by
  refine ⟨totalNetWorth_eq_sum assets, totalReturn_eq_sum assets, ?_, ?_⟩
  · intro h
    simp [totalReturnRate, h]
  · intro h
    simp [totalReturnRate, h]

/-- Concrete instance of C5 on a list with zero net worth but a nonzero
individual return rate. -/
theorem c5_derived_metrics_witness :
    totalNetWorth [demoAsset "A" 0 7] = 0
  ∧ totalReturnRate [demoAsset "A" 0 7] = 0 := by
  have h0 : totalNetWorth [demoAsset "A" 0 7] = 0 := by
    simp [totalNetWorth, demoAsset]
  exact ⟨h0, (c5_derived_metrics [demoAsset "A" 0 7]).2.2.2 h0⟩

/-! ### Claim C6: records with a falsy name are skipped -/

/-- C6: an extracted record whose name is absent or empty is skipped
entirely by the reconciliation: the asset list is unchanged, both for the
single record and inside the fold (where the uuid counter is also
unchanged), and no error is possible since the merge is total. -/
theorem c6_empty_name_skipped (now fid : String) (assets : List Asset)
    (e : AssetPatch) (h : e.name = none ∨ e.name = some "") :
    mergeOne now fid assets e = assets
  ∧ ∀ (uuid : Nat → String) (k : Nat),
      mergeStep now uuid (assets, k) e = (assets, k) := by
  refine ⟨mergeOne_skip now fid assets e h, fun uuid k => ?_⟩
  simp [mergeStep, mergeOne_skip now (uuid k) assets e h]

/-- Concrete instance of C6 with an empty extracted name. -/
theorem c6_empty_name_skipped_witness :
    ((some "" : Option String) = none ∨ (some "" : Option String) = some "")
  ∧ mergeOne "T" "u" [demoAsset "A" 1 2]
      ⟨none, some "", none, some 5, none, none, none⟩ = [demoAsset "A" 1 2] :=
  ⟨Or.inr rfl,
    (c6_empty_name_skipped "T" "u" [demoAsset "A" 1 2]
      ⟨none, some "", none, some 5, none, none, none⟩ (Or.inr rfl)).1⟩

/-! ### Claim C8: analysis on empty holdings is rejected up front -/

/-- C8: when the asset list is empty, handleRunAnalysis returns the state
untouched (in particular the stored analysis is unchanged), shows the
immediate empty-holdings notice, and the service-called flag is false: no
service traffic, whatever the service outcome would have been. -/
theorem c8_analysis_rejected_on_empty (st : AppState)
    (outcome : Except String AnalysisResponse)
    (h : st.assets.length = 0) :
    handleRunAnalysis st outcome = (st, AnalysisNotice.emptyHoldings, false) := by
  simp [handleRunAnalysis, h]

/-- Concrete instance of C8 on the empty state. -/
theorem c8_analysis_rejected_on_empty_witness :
    ([] : List Asset).length = 0
  ∧ handleRunAnalysis ⟨[], [], none⟩ (Except.ok ⟨"x", "y", "z"⟩) =
      (⟨[], [], none⟩, AnalysisNotice.emptyHoldings, false) :=
  ⟨rfl, c8_analysis_rejected_on_empty ⟨[], [], none⟩ (Except.ok ⟨"x", "y", "z"⟩) rfl⟩

/-! ### Claim C7: malformed or empty extraction responses -/

/-- C7: an absent response text, an empty response text, or a text whose
parse fails all make the extraction client return the empty list rather
than an error; the caller merges an empty list into an unchanged holdings
list; and the upload failure notice shows exactly when the underlying call
itself threw. -/
theorem c7_empty_or_malformed_response (now todayStr : String)
    (uuid : Nat → String) (st : AppState) :
    (∀ parsed, parseHoldingsScreenshot now none parsed = [])
  ∧ (∀ parsed, parseHoldingsScreenshot now (some "") parsed = [])
  ∧ (∀ t, parseHoldingsScreenshot now (some t) none = [])
  ∧ (handleFileUpload now todayStr uuid st (Except.ok [])).1.assets = st.assets
  ∧ (∀ outcome : Except String (List AssetPatch),
      (handleFileUpload now todayStr uuid st outcome).2 = UploadNotice.uploadFailed
        ↔ ∃ msg, outcome = Except.error msg) := by
  refine ⟨fun parsed => rfl, fun parsed => by simp [parseHoldingsScreenshot],
    fun t => ?_, by simp [handleFileUpload, mergeMany], fun outcome => ?_⟩
  · by_cases ht : t = "" <;> simp [parseHoldingsScreenshot, ht]
  · cases outcome with
    | ok l => simp [handleFileUpload]
    | error m => simp [handleFileUpload]

/-- Concrete instance of C7: an unparseable response on a nonempty state. -/
theorem c7_empty_or_malformed_response_witness :
    parseHoldingsScreenshot "T" (some "garbage") none = []
  ∧ (handleFileUpload "T" "D" (fun _ => "u") ⟨[demoAsset "A" 1 2], [], none⟩
      (Except.ok [])).1.assets = [demoAsset "A" 1 2] :=
  ⟨(c7_empty_or_malformed_response "T" "D" (fun _ => "u")
      ⟨[demoAsset "A" 1 2], [], none⟩).2.2.1 "garbage",
    (c7_empty_or_malformed_response "T" "D" (fun _ => "u")
      ⟨[demoAsset "A" 1 2], [], none⟩).2.2.2.1⟩

/-! ### Claim C1: update-by-name merge -/

theorem jsOrDefault_ne_empty (v : Option String) (d : String) (hd : d ≠ "") :
    jsOrDefault v d ≠ "" := by
  cases v with
  | none => simpa [jsOrDefault] using hd
  | some s =>
      by_cases hs : s = ""
      · simpa [jsOrDefault, hs] using hd
      · simp [jsOrDefault, hs]

/-- C1: an extracted record with a present, nonempty name equal to the name
of the first matching existing asset overwrites exactly that asset in
place: each field present in the record replaces the prior value, each
absent field keeps the prior value, the identity is retained (extracted
records carry no id field), and lastUpdated becomes the current time.  The
matched index is the first one whose name equals the extracted name. -/
theorem c1_update_by_name (now fid n : String) (assets : List Asset)
    (e : AssetPatch) (i : Nat) (a : Asset)
    (hn : e.name = some n) (hne : n ≠ "") (hid : e.id = none)
    (hfind : assets.findIdx? (fun x => x.name == n) = some i)
    (hget : assets[i]? = some a) :
    mergeOne now fid assets e =
      assets.set i
        { id := a.id,
          name := e.name.getD a.name,
          category := e.category.getD a.category,
          amount := e.amount.getD a.amount,
          returnRate := e.returnRate.getD a.returnRate,
          currency := e.currency.getD a.currency,
          lastUpdated := now }
  ∧ a.name = n
  ∧ ∀ j, j < i → ∀ q, assets[j]? = some q → q.name ≠ n := by
  obtain ⟨hlt, hp, hfirst⟩ := List.findIdx?_eq_some_iff_getElem.mp hfind
  obtain ⟨hlt2, hgeq⟩ := List.getElem?_eq_some_iff.mp hget
  refine ⟨?_, ?_, ?_⟩
  · rw [mergeOne_named now fid n assets e hn hne,
      mergeNamed_update now fid n assets e i hfind]
    have hgd : assets.getD i undefinedJsAsset = a := by simp [hget]
    rw [hgd]
    congr 1
    simp [spreadInto, hid]
  · rw [← hgeq]
    exact beq_iff_eq.mp hp
  · intro j hj q hq hc
    obtain ⟨hjl, hje⟩ := List.getElem?_eq_some_iff.mp hq
    apply hfirst j hj
    rw [show assets[j] = q from hje, hc]
    exact beq_self_eq_true n

/-- Concrete instance of C1, the scenario of the specification: updating
Fund A from amount 10000 to 12000 keeps the identity and the return rate. -/
theorem c1_update_by_name_witness :
    (namedAmountPatch "Fund A" 12000).name = some "Fund A"
  ∧ mergeOne "T1" "f1" [demoAsset "Fund A" 10000 5]
      (namedAmountPatch "Fund A" 12000) =
      [{ id := "id-" ++ "Fund A", name := "Fund A",
         category := AssetCategory.fund, amount := 12000, returnRate := 5,
         currency := "CNY", lastUpdated := "T1" }] := by
  have h := (c1_update_by_name "T1" "f1" "Fund A" [demoAsset "Fund A" 10000 5]
      (namedAmountPatch "Fund A" 12000) 0 (demoAsset "Fund A" 10000 5)
      rfl (by decide) rfl (by decide) rfl).1
  refine ⟨rfl, h.trans ?_⟩
  simp [demoAsset, namedAmountPatch]

/-! ### Claim C2: unmatched records are appended with defaults -/

/-- C2: a sanitized extracted record whose name matches no existing asset is
appended at the end of the list, leaving all pre-existing assets (and their
order) untouched; the new asset carries the freshly drawn id (unique among
the asset ids when the draw is fresh), the category decoded from the raw
string when it is in the fixed enumeration and Other otherwise, amount and
return rate zero when absent, currency CNY when absent, and lastUpdated set
to the merge time. -/
theorem c2_append_with_defaults (nowS now fid : String) (assets : List Asset)
    (r : RawItem)
    (hmiss : ∀ x ∈ assets, x.name ≠ jsOrDefault r.name "未知资产")
    (hfresh : ∀ x ∈ assets, x.id ≠ fid)
    (hids : (assets.map Asset.id).Nodup) :
    mergeOne now fid assets (sanitizeItem nowS r) =
      assets ++
        [{ id := fid,
           name := jsOrDefault r.name "未知资产",
           category := (r.category.bind categoryOfString).getD AssetCategory.other,
           amount := r.amount.getD 0,
           returnRate := r.returnRate.getD 0,
           currency := jsOrDefault r.currency "CNY",
           lastUpdated := now }]
  ∧ (mergeOne now fid assets (sanitizeItem nowS r)).length = assets.length + 1
  ∧ ((mergeOne now fid assets (sanitizeItem nowS r)).map Asset.id).Nodup
  ∧ (∀ cs, r.category = some cs → categoryOfString cs = none →
        (r.category.bind categoryOfString).getD AssetCategory.other =
          AssetCategory.other)
  ∧ (r.amount = none → r.amount.getD 0 = 0)
  ∧ (r.returnRate = none → r.returnRate.getD 0 = 0)
  ∧ (r.currency = none → jsOrDefault r.currency "CNY" = "CNY") := by
  have hname : (sanitizeItem nowS r).name = some (jsOrDefault r.name "未知资产") := rfl
  have hnne : jsOrDefault r.name "未知资产" ≠ "" :=
    jsOrDefault_ne_empty _ _ (by decide)
  have hnone : assets.findIdx?
      (fun a => a.name == jsOrDefault r.name "未知资产") = none := by
    rw [List.findIdx?_eq_none_iff]
    intro x hx
    simpa using hmiss x hx
  have hmain : mergeOne now fid assets (sanitizeItem nowS r) =
      assets ++
        [{ id := fid,
           name := jsOrDefault r.name "未知资产",
           category := (r.category.bind categoryOfString).getD AssetCategory.other,
           amount := r.amount.getD 0,
           returnRate := r.returnRate.getD 0,
           currency := jsOrDefault r.currency "CNY",
           lastUpdated := now }] := by
    rw [mergeOne_named now fid _ assets _ hname hnne,
      mergeNamed_insert now fid _ assets _ hnone]
    simp [spreadInto, sanitizeItem]
  refine ⟨hmain, ?_, ?_, ?_, ?_, ?_, ?_⟩
  · rw [hmain]; simp
  · rw [hmain]
    simp only [List.map_append, List.map_cons, List.map_nil]
    rw [List.nodup_append]
    refine ⟨hids, List.nodup_singleton _, ?_⟩
    intro x hx hx2
    simp only [List.mem_singleton] at hx2
    obtain ⟨ax, haxm, haxid⟩ := List.mem_map.mp hx
    exact hfresh ax haxm (by rw [haxid, hx2])
  · intro cs h1 h2; simp [h1, h2]
  · intro h1; simp [h1]
  · intro h1; simp [h1]
  · intro h1; simp [h1, jsOrDefault]

/-- Concrete instance of C2, the scenario of the specification: a Stock X
record extracted into an empty list yields one new asset. -/
theorem c2_append_with_defaults_witness :
    (∀ x ∈ ([] : List Asset), x.name ≠ jsOrDefault (some "Stock X") "未知资产")
  ∧ (mergeOne "T" "u0" []
      (sanitizeItem "S" ⟨some "Stock X", some "Stock", some 5000, some (-2), none⟩)).length =
      ([] : List Asset).length + 1 :=
  ⟨by simp,
    (c2_append_with_defaults "S" "T" "u0" []
      ⟨some "Stock X", some "Stock", some 5000, some (-2), none⟩
      (by simp) (by simp) (by simp)).2.1⟩

/-! ### Claim C9: sanitizer output invariants -/

/-- C9: every record produced by the sanitization step of the extraction
client has a present, nonempty name (the placeholder when the raw name was
missing or empty), a category from the fixed enumeration (the typed field;
an unknown raw category decodes to Other), present numeric amount and
returnRate (missing or non-numeric raw values coerce to 0); consequently
the empty-name skip branch of the merge is never taken on such a record:
the merge always proceeds to the named lookup. -/
theorem c9_sanitized_records (nowS now fid : String) (r : RawItem)
    (assets : List Asset) :
    ∃ m, (sanitizeItem nowS r).name = some m ∧ m ≠ ""
      ∧ ((r.name = none ∨ r.name = some "") → m = "未知资产")
      ∧ (sanitizeItem nowS r).category =
          some ((r.category.bind categoryOfString).getD AssetCategory.other)
      ∧ (∀ cs, r.category = some cs → categoryOfString cs = none →
            (sanitizeItem nowS r).category = some AssetCategory.other)
      ∧ (sanitizeItem nowS r).amount = some (r.amount.getD 0)
      ∧ (sanitizeItem nowS r).returnRate = some (r.returnRate.getD 0)
      ∧ mergeOne now fid assets (sanitizeItem nowS r) =
          mergeNamed now fid m assets (sanitizeItem nowS r) := by
  refine ⟨jsOrDefault r.name "未知资产", rfl,
    jsOrDefault_ne_empty _ _ (by decide), ?_, rfl, ?_, rfl, rfl, ?_⟩
  · rintro (h1 | h1) <;> simp [jsOrDefault, h1]
  · intro cs h1 h2
    simp [sanitizeItem, h1, h2]
  · exact mergeOne_named now fid _ assets _ rfl
      (jsOrDefault_ne_empty _ _ (by decide))

/-- Concrete instance of C9 on a raw record with every field missing. -/
theorem c9_sanitized_records_witness :
    (sanitizeItem "S" ⟨none, none, none, none, none⟩).name = some "未知资产"
  ∧ mergeOne "T" "u" [] (sanitizeItem "S" ⟨none, none, none, none, none⟩) =
      mergeNamed "T" "u" "未知资产" [] (sanitizeItem "S" ⟨none, none, none, none, none⟩) := by
  obtain ⟨m, h1, _, h3, _, _, _, _, h8⟩ :=
    c9_sanitized_records "S" "T" "u" ⟨none, none, none, none, none⟩ []
  have hm : m = "未知资产" := h3 (Or.inl rfl)
  subst hm
  exact ⟨h1, h8⟩

/-! ### Claim C10: the merge searches the in-progress list -/

/-- C10: two records of one batch sharing a name that is absent from the
pre-existing list produce exactly one new asset: the first record inserts
it at the end (drawing the first fresh uuid), and the second record finds
that newly inserted asset and updates it in place, so no duplicate is
appended and the result is one asset longer than the input. -/
theorem c10_batch_same_new_name (now : String) (uuid : Nat → String)
    (assets : List Asset) (e₁ e₂ : AssetPatch) (n : String)
    (h1 : e₁.name = some n) (h2 : e₂.name = some n) (hne : n ≠ "")
    (hid2 : e₂.id = none)
    (hmiss : ∀ x ∈ assets, x.name ≠ n) :
    mergeMany now uuid assets [e₁, e₂] =
      assets ++
        [{ spreadInto
             { spreadInto undefinedJsAsset e₁ with id := uuid 0, lastUpdated := now }
             e₂ with lastUpdated := now }]
  ∧ (mergeMany now uuid assets [e₁, e₂]).length = assets.length + 1
  ∧ ({ spreadInto
        { spreadInto undefinedJsAsset e₁ with id := uuid 0, lastUpdated := now }
        e₂ with lastUpdated := now } : Asset).id = uuid 0 := by
  have hnone : assets.findIdx? (fun a => a.name == n) = none := by
    rw [List.findIdx?_eq_none_iff]
    intro x hx
    simpa using hmiss x hx
  have ha1 : mergeOne now (uuid 0) assets e₁ =
      assets ++ [{ spreadInto undefinedJsAsset e₁ with id := uuid 0, lastUpdated := now }] := by
    rw [mergeOne_named now (uuid 0) n assets e₁ h1 hne,
      mergeNamed_insert now (uuid 0) n assets e₁ hnone]
  have hstep1 : mergeStep now uuid (assets, 0) e₁ =
      (assets ++ [{ spreadInto undefinedJsAsset e₁ with id := uuid 0, lastUpdated := now }], 1) := by
    simp [mergeStep, ha1]
  have hfind2 :
      (assets ++ [{ spreadInto undefinedJsAsset e₁ with id := uuid 0, lastUpdated := now }]).findIdx?
        (fun a : Asset => a.name == n) = some assets.length := by
    rw [List.findIdx?_append, hnone]
    simp [spreadInto, h1]
  have hgd2 :
      (assets ++ [{ spreadInto undefinedJsAsset e₁ with id := uuid 0, lastUpdated := now }]).getD
        assets.length undefinedJsAsset =
      { spreadInto undefinedJsAsset e₁ with id := uuid 0, lastUpdated := now } := by
    simp [List.getElem?_concat_length]
  have ha2 : mergeOne now (uuid 1)
      (assets ++ [{ spreadInto undefinedJsAsset e₁ with id := uuid 0, lastUpdated := now }]) e₂ =
      assets ++
        [{ spreadInto
             { spreadInto undefinedJsAsset e₁ with id := uuid 0, lastUpdated := now }
             e₂ with lastUpdated := now }] := by
    rw [mergeOne_named now (uuid 1) n _ e₂ h2 hne,
      mergeNamed_update now (uuid 1) n _ e₂ assets.length hfind2, hgd2,
      List.set_append_right assets.length _ (Nat.le_refl _)]
    simp
  have hmain : mergeMany now uuid assets [e₁, e₂] =
      assets ++
        [{ spreadInto
             { spreadInto undefinedJsAsset e₁ with id := uuid 0, lastUpdated := now }
             e₂ with lastUpdated := now }] := by
    show (([e₁, e₂]).foldl (mergeStep now uuid) (assets, 0)).1 = _
    rw [List.foldl_cons, List.foldl_cons, List.foldl_nil, hstep1]
    rw [mergeStep_fst]
    exact ha2
  refine ⟨hmain, by rw [hmain]; simp, by simp [spreadInto, hid2]⟩

/-- Concrete instance of C10: two records named B over an empty list yield
one asset whose id is the first drawn uuid. -/
theorem c10_batch_same_new_name_witness :
    (namedAmountPatch "B" 4).id = none
  ∧ (mergeMany "T" (fun _ => "u9") []
      [namedAmountPatch "B" 3, namedAmountPatch "B" 4]).length =
      ([] : List Asset).length + 1 := by
  refine ⟨rfl, (c10_batch_same_new_name "T" (fun _ => "u9") []
    (namedAmountPatch "B" 3) (namedAmountPatch "B" 4) "B"
    rfl rfl (by decide) rfl (by simp)).2.1⟩

/-! ### Claim C3: history update, one point per day -/

theorem stringEq_of_dataEq {s t : String} (h : s.data = t.data) : s = t :=
  congrArg String.mk h

theorem jsStartsWith_eq_beq_of_le {D : String} {p : HistoryPoint}
    (hlen : p.date.data.length ≤ D.data.length) :
    jsStartsWith p.date D = (p.date == D) := by
  by_cases hpd : p.date = D
  · simp [jsStartsWith, hpd, isPrefixOf_self]
  · have hfalse : D.data.isPrefixOf p.date.data = false := by
      cases hc : D.data.isPrefixOf p.date.data
      · rfl
      · exact absurd
          (stringEq_of_dataEq
            (eq_of_isPrefixOf_of_length_le D.data p.date.data hc hlen)).symm hpd
    simp [jsStartsWith, hfalse, hpd]

/-- C3: for day-granularity stored dates (each at most as long as the day
string of the reconciliation, as in the data model where a date is a
calendar day), the history update replaces in place, preserving position
and length, when a point dated today already exists and is the first such
point; appends a single new point otherwise; and preserves the
at-most-one-point-per-day invariant (no two points share a date). -/
theorem c3_history_update (D : String) (nw rr : ℚ) (H : List HistoryPoint)
    (hlen : ∀ p ∈ H, p.date.data.length ≤ D.data.length) :
    (∀ i p, H[i]? = some p → p.date = D →
        (∀ j, j < i → ∀ q, H[j]? = some q → q.date ≠ D) →
        updateHistory D ⟨D, nw, rr⟩ H = H.set i ⟨D, nw, rr⟩
          ∧ (updateHistory D ⟨D, nw, rr⟩ H).length = H.length)
  ∧ ((∀ p ∈ H, p.date ≠ D) →
        updateHistory D ⟨D, nw, rr⟩ H = H ++ [⟨D, nw, rr⟩]
          ∧ (updateHistory D ⟨D, nw, rr⟩ H).length = H.length + 1)
  ∧ ((H.map HistoryPoint.date).Nodup →
        ((updateHistory D ⟨D, nw, rr⟩ H).map HistoryPoint.date).Nodup) := by
  have hcong : H.findIdx? (fun h => jsStartsWith h.date D) =
      H.findIdx? (fun h => h.date == D) :=
    findIdx?_congr_mem (fun p hp => jsStartsWith_eq_beq_of_le (hlen p hp))
  refine ⟨?_, ?_, ?_⟩
  · intro i p hget hdate hfirst
    obtain ⟨hlt, hgeq⟩ := List.getElem?_eq_some_iff.mp hget
    have hfind : H.findIdx? (fun h => h.date == D) = some i := by
      rw [List.findIdx?_eq_some_iff_getElem]
      refine ⟨hlt, ?_, ?_⟩
      · rw [hgeq, hdate]
        exact beq_self_eq_true D
      · intro j hj hc
        have hjq : H[j]? = some (H[j]) := List.getElem?_eq_getElem (by omega)
        exact hfirst j hj (H[j]) hjq (beq_iff_eq.mp hc)
    have heq : updateHistory D ⟨D, nw, rr⟩ H = H.set i ⟨D, nw, rr⟩ := by
      unfold updateHistory
      rw [hcong, hfind]
    exact ⟨heq, by rw [heq]; simp⟩
  · intro hall
    have hfind : H.findIdx? (fun h => h.date == D) = none := by
      rw [List.findIdx?_eq_none_iff]
      intro x hx
      simpa using hall x hx
    have heq : updateHistory D ⟨D, nw, rr⟩ H = H ++ [⟨D, nw, rr⟩] := by
      unfold updateHistory
      rw [hcong, hfind]
    exact ⟨heq, by rw [heq]; simp⟩
  · intro hnodup
    unfold updateHistory
    rw [hcong]
    cases hf : H.findIdx? (fun h => h.date == D) with
    | some i =>
        obtain ⟨hlt, hp, _⟩ := List.findIdx?_eq_some_iff_getElem.mp hf
        have hdate : H[i].date = D := beq_iff_eq.mp hp
        have hmap : (H.set i ⟨D, nw, rr⟩).map HistoryPoint.date =
            H.map HistoryPoint.date := by
          rw [List.map_set]
          apply set_getElem?_same
          simp [List.getElem?_eq_getElem hlt, hdate]
        rw [hmap]
        exact hnodup
    | none =>
        have hall : ∀ x ∈ H, x.date ≠ D := by
          intro x hx
          simpa using List.findIdx?_eq_none_iff.mp hf x hx
        rw [List.map_append, List.nodup_append]
        refine ⟨hnodup, by simp, ?_⟩
        intro x hx hx2
        simp only [List.map_cons, List.map_nil, List.mem_singleton] at hx2
        obtain ⟨q, hqm, hqd⟩ := List.mem_map.mp hx
        exact hall q hqm (by rw [hqd]; exact hx2)

/-- Concrete instance of C3: a new day is appended after an older point. -/
theorem c3_history_update_witness :
    (∀ p ∈ [(⟨"2025-01-01", 1, 2⟩ : HistoryPoint)],
        p.date.data.length ≤ ("2025-01-02" : String).data.length)
  ∧ updateHistory "2025-01-02" ⟨"2025-01-02", 5, 6⟩ [⟨"2025-01-01", 1, 2⟩] =
      [⟨"2025-01-01", 1, 2⟩, ⟨"2025-01-02", 5, 6⟩] := by
  refine ⟨by decide, ?_⟩
  exact ((c3_history_update "2025-01-02" 5 6 [⟨"2025-01-01", 1, 2⟩]
    (by decide)).2.1 (by decide)).1

/-! ### Claim C4: the written net worth and its gap to the merged total -/

theorem stepDrift_skip (now fid : String) (assets : List Asset)
    (e : AssetPatch) (h : e.name = none ∨ e.name = some "") :
    stepDrift now fid assets e = e.amount.getD 0 := by
  simp [stepDrift, mergeOne_skip now fid assets e h]

theorem stepDrift_update (now fid n : String) (assets : List Asset)
    (e : AssetPatch) (i : Nat) (a : Asset)
    (hn : e.name = some n) (hne : n ≠ "")
    (hfind : assets.findIdx? (fun x => x.name == n) = some i)
    (hget : assets[i]? = some a) (hb : ∃ b, e.amount = some b) :
    stepDrift now fid assets e = a.amount := by
  obtain ⟨b, hb⟩ := hb
  unfold stepDrift
  rw [mergeOne_named now fid n assets e hn hne,
    mergeNamed_update now fid n assets e i hfind]
  have hgd : assets.getD i undefinedJsAsset = a := by simp [hget]
  rw [hgd, totalNetWorth_set assets i a _ hget]
  simp [spreadInto, hb]
  ring

theorem stepDrift_update_noamount (now fid n : String) (assets : List Asset)
    (e : AssetPatch) (i : Nat) (a : Asset)
    (hn : e.name = some n) (hne : n ≠ "")
    (hfind : assets.findIdx? (fun x => x.name == n) = some i)
    (hget : assets[i]? = some a) (hb : e.amount = none) :
    stepDrift now fid assets e = 0 := by
  unfold stepDrift
  rw [mergeOne_named now fid n assets e hn hne,
    mergeNamed_update now fid n assets e i hfind]
  have hgd : assets.getD i undefinedJsAsset = a := by simp [hget]
  rw [hgd, totalNetWorth_set assets i a _ hget]
  simp [spreadInto, hb]

theorem stepDrift_insert (now fid n : String) (assets : List Asset)
    (e : AssetPatch)
    (hn : e.name = some n) (hne : n ≠ "")
    (hfind : assets.findIdx? (fun x => x.name == n) = none) :
    stepDrift now fid assets e = 0 := by
  unfold stepDrift
  rw [mergeOne_named now fid n assets e hn hne,
    mergeNamed_insert now fid n assets e hfind,
    totalNetWorth_append_single]
  simp [spreadInto, undefinedJsAsset]

theorem stepDrift_nonneg (now fid : String) (assets : List Asset)
    (e : AssetPatch)
    (hassets : ∀ x ∈ assets, 0 ≤ x.amount)
    (hamt : ∀ b, e.amount = some b → 0 ≤ b) :
    0 ≤ stepDrift now fid assets e := by
  have hd0 : 0 ≤ e.amount.getD 0 := by
    cases ha : e.amount with
    | none => simp
    | some b => simpa using hamt b ha
  cases hn : e.name with
  | none =>
      rw [stepDrift_skip now fid assets e (Or.inl hn)]
      exact hd0
  | some n =>
      by_cases hne : n = ""
      · subst hne
        rw [stepDrift_skip now fid assets e (Or.inr hn)]
        exact hd0
      · cases hf : assets.findIdx? (fun x => x.name == n) with
        | none =>
            rw [stepDrift_insert now fid n assets e hn hne hf]
        | some i =>
            have hlt : i < assets.length :=
              (List.findIdx?_eq_some_iff_getElem.mp hf).1
            have hget : assets[i]? = some (assets[i]) :=
              List.getElem?_eq_getElem hlt
            cases ha : e.amount with
            | none =>
                rw [stepDrift_update_noamount now fid n assets e i (assets[i])
                  hn hne hf hget ha]
            | some b =>
                rw [stepDrift_update now fid n assets e i (assets[i])
                  hn hne hf hget ⟨b, ha⟩]
                exact hassets _ (List.getElem?_mem hget)

theorem mergeOne_nonneg (now fid : String) (assets : List Asset)
    (e : AssetPatch)
    (hassets : ∀ x ∈ assets, 0 ≤ x.amount)
    (hamt : ∀ b, e.amount = some b → 0 ≤ b) :
    ∀ x ∈ mergeOne now fid assets e, 0 ≤ x.amount := by
  have hd0 : 0 ≤ e.amount.getD 0 := by
    cases ha : e.amount with
    | none => simp
    | some b => simpa using hamt b ha
  cases hn : e.name with
  | none =>
      rw [mergeOne_skip now fid assets e (Or.inl hn)]
      exact hassets
  | some n =>
      by_cases hne : n = ""
      · subst hne
        rw [mergeOne_skip now fid assets e (Or.inr hn)]
        exact hassets
      · cases hf : assets.findIdx? (fun x => x.name == n) with
        | none =>
            rw [mergeOne_named now fid n assets e hn hne,
              mergeNamed_insert now fid n assets e hf]
            intro x hx
            rcases List.mem_append.mp hx with hx | hx
            · exact hassets x hx
            · simp only [List.mem_singleton] at hx
              subst hx
              simpa [spreadInto, undefinedJsAsset] using hd0
        | some i =>
            have hlt : i < assets.length :=
              (List.findIdx?_eq_some_iff_getElem.mp hf).1
            have hget : assets[i]? = some (assets[i]) :=
              List.getElem?_eq_getElem hlt
            rw [mergeOne_named now fid n assets e hn hne,
              mergeNamed_update now fid n assets e i hf]
            intro x hx
            rcases List.mem_or_eq_of_mem_set hx with hx | hx
            · exact hassets x hx
            · subst hx
              cases ha : e.amount with
              | none =>
                  simpa [spreadInto, hget, ha] using
                    hassets _ (List.getElem?_mem hget)
              | some b =>
                  simpa [spreadInto, hget, ha] using hamt b ha

theorem foldl_mergeStep_nonneg (now : String) (uuid : Nat → String) :
    ∀ (l : List AssetPatch) (st : List Asset × Nat),
      (∀ x ∈ st.1, 0 ≤ x.amount) →
      (∀ p ∈ l, ∀ b, p.amount = some b → 0 ≤ b) →
      ∀ x ∈ (l.foldl (mergeStep now uuid) st).1, 0 ≤ x.amount := by
  intro l
  induction l with
  | nil => intro st h1 _; simpa using h1
  | cons e rest ih =>
      intro st h1 h2
      rw [List.foldl_cons]
      apply ih
      · intro x hx
        rw [mergeStep_fst] at hx
        exact mergeOne_nonneg now (uuid st.2) st.1 e h1
          (h2 e (List.mem_cons_self e rest)) x hx
      · intro p hp
        exact h2 p (List.mem_cons_of_mem e hp)

theorem mergeDrift_nonneg (now : String) (uuid : Nat → String) :
    ∀ (l : List AssetPatch) (st : List Asset × Nat),
      (∀ x ∈ st.1, 0 ≤ x.amount) →
      (∀ p ∈ l, ∀ b, p.amount = some b → 0 ≤ b) →
      0 ≤ mergeDrift now uuid st l := by
  intro l
  induction l with
  | nil => intro st _ _; simp [mergeDrift]
  | cons e rest ih =>
      intro st h1 h2
      have hs := stepDrift_nonneg now (uuid st.2) st.1 e h1
        (h2 e (List.mem_cons_self e rest))
      have hr := ih (mergeStep now uuid st e)
        (fun x hx => mergeOne_nonneg now (uuid st.2) st.1 e h1
          (h2 e (List.mem_cons_self e rest)) x (by rwa [mergeStep_fst] at hx))
        (fun p hp => h2 p (List.mem_cons_of_mem e hp))
      have hcons : mergeDrift now uuid st (e :: rest) =
          stepDrift now (uuid st.2) st.1 e +
            mergeDrift now uuid (mergeStep now uuid st e) rest := rfl
      rw [hcons]
      exact add_nonneg hs hr

theorem mergeDrift_append (now : String) (uuid : Nat → String) :
    ∀ (l₁ l₂ : List AssetPatch) (st : List Asset × Nat),
      mergeDrift now uuid st (l₁ ++ l₂) =
        mergeDrift now uuid st l₁ +
          mergeDrift now uuid (l₁.foldl (mergeStep now uuid) st) l₂ := by
  intro l₁
  induction l₁ with
  | nil => intro l₂ st; simp [mergeDrift]
  | cons e rest ih =>
      intro l₂ st
      have hlhs : mergeDrift now uuid st ((e :: rest) ++ l₂) =
          stepDrift now (uuid st.2) st.1 e +
            mergeDrift now uuid (mergeStep now uuid st e) (rest ++ l₂) := rfl
      have hrhs : mergeDrift now uuid st (e :: rest) =
          stepDrift now (uuid st.2) st.1 e +
            mergeDrift now uuid (mergeStep now uuid st e) rest := rfl
      rw [hlhs, ih l₂ (mergeStep now uuid st e), hrhs, List.foldl_cons]
      ring

theorem sum_eq_totalDiff_add_drift (now : String) (uuid : Nat → String) :
    ∀ (l : List AssetPatch) (st : List Asset × Nat),
      sumExtractedAmounts l =
        (totalNetWorth (l.foldl (mergeStep now uuid) st).1 - totalNetWorth st.1)
          + mergeDrift now uuid st l := by
  intro l
  induction l with
  | nil => intro st; simp [sumExtractedAmounts, mergeDrift]
  | cons e rest ih =>
      intro st
      have hsum : sumExtractedAmounts (e :: rest) =
          e.amount.getD 0 + sumExtractedAmounts rest := by
        simp [sumExtractedAmounts_eq_sum]
      have hcons : mergeDrift now uuid st (e :: rest) =
          stepDrift now (uuid st.2) st.1 e +
            mergeDrift now uuid (mergeStep now uuid st e) rest := rfl
      rw [hsum, List.foldl_cons, ih (mergeStep now uuid st e), hcons]
      simp only [stepDrift, mergeStep_fst]
      ring

/-- C4 (amended): the net-worth value written into the history point for
today equals the pre-update total net worth plus the raw sum of the
extracted amounts (absent amounts counted as zero); and, amounts being
non-negative as in the data model, whenever some extracted record updates
(rather than inserts) an asset of the in-progress list whose prior amount
at that moment is nonzero, with an amount of its own present, the written
value does not equal the total net worth recomputed over the post-merge
asset list. -/
theorem c4_written_networth_gap
    (now D : String) (uuid : Nat → String) (st : AppState)
    (l₁ l₂ : List AssetPatch) (e : AssetPatch) (n : String) (i : Nat)
    (a : Asset) (b : ℚ)
    (hassets : ∀ x ∈ st.assets, 0 ≤ x.amount)
    (hpatches : ∀ p ∈ l₁ ++ e :: l₂, ∀ q, p.amount = some q → 0 ≤ q)
    (hn : e.name = some n) (hne : n ≠ "")
    (hfind : (l₁.foldl (mergeStep now uuid) (st.assets, 0)).1.findIdx?
        (fun x : Asset => x.name == n) = some i)
    (hget : (l₁.foldl (mergeStep now uuid) (st.assets, 0)).1[i]? = some a)
    (hb : e.amount = some b) (_hdiff : b ≠ a.amount) (hnz : a.amount ≠ 0) :
    (handleFileUpload now D uuid st (Except.ok (l₁ ++ e :: l₂))).1.history =
      updateHistory D
        { date := D,
          totalNetWorth :=
            totalNetWorth st.assets + sumExtractedAmounts (l₁ ++ e :: l₂),
          totalReturnRate := totalReturnRate st.assets }
        st.history
  ∧ totalNetWorth st.assets + sumExtractedAmounts (l₁ ++ e :: l₂) ≠
      totalNetWorth
        (handleFileUpload now D uuid st (Except.ok (l₁ ++ e :: l₂))).1.assets := by
  constructor
  · rfl
  · have hassets' :
        (handleFileUpload now D uuid st (Except.ok (l₁ ++ e :: l₂))).1.assets =
          ((l₁ ++ e :: l₂).foldl (mergeStep now uuid) (st.assets, 0)).1 := rfl
    rw [hassets']
    have htele := sum_eq_totalDiff_add_drift now uuid (l₁ ++ e :: l₂) (st.assets, 0)
    have hmidnn : ∀ x ∈ (l₁.foldl (mergeStep now uuid) (st.assets, 0)).1,
        0 ≤ x.amount :=
      foldl_mergeStep_nonneg now uuid l₁ (st.assets, 0) hassets
        (fun p hp => hpatches p (List.mem_append_left _ hp))
    have hanonneg : 0 ≤ a.amount := hmidnn a (List.getElem?_mem hget)
    have hapos : 0 < a.amount := lt_of_le_of_ne hanonneg (Ne.symm hnz)
    have hdec := mergeDrift_append now uuid l₁ (e :: l₂) (st.assets, 0)
    have hstep : stepDrift now
        (uuid (l₁.foldl (mergeStep now uuid) (st.assets, 0)).2)
        (l₁.foldl (mergeStep now uuid) (st.assets, 0)).1 e = a.amount :=
      stepDrift_update now _ n _ e i a hn hne hfind hget ⟨b, hb⟩
    have hcons : mergeDrift now uuid
        (l₁.foldl (mergeStep now uuid) (st.assets, 0)) (e :: l₂) =
        stepDrift now (uuid (l₁.foldl (mergeStep now uuid) (st.assets, 0)).2)
          (l₁.foldl (mergeStep now uuid) (st.assets, 0)).1 e +
          mergeDrift now uuid
            (mergeStep now uuid (l₁.foldl (mergeStep now uuid) (st.assets, 0)) e)
            l₂ := rfl
    have hl1nn : 0 ≤ mergeDrift now uuid (st.assets, 0) l₁ :=
      mergeDrift_nonneg now uuid l₁ (st.assets, 0) hassets
        (fun p hp => hpatches p (List.mem_append_left _ hp))
    have hamt_e : ∀ q, e.amount = some q → 0 ≤ q :=
      fun q hq => hpatches e
        (List.mem_append_right _ (List.mem_cons_self e l₂)) q hq
    have hl2nn : 0 ≤ mergeDrift now uuid
        (mergeStep now uuid (l₁.foldl (mergeStep now uuid) (st.assets, 0)) e)
        l₂ :=
      mergeDrift_nonneg now uuid l₂ _
        (fun x hx => mergeOne_nonneg now
          (uuid (l₁.foldl (mergeStep now uuid) (st.assets, 0)).2)
          (l₁.foldl (mergeStep now uuid) (st.assets, 0)).1 e hmidnn hamt_e x
          (by rwa [mergeStep_fst] at hx))
        (fun p hp => hpatches p
          (List.mem_append_right _ (List.mem_cons_of_mem e hp)))
    have hdpos : 0 < mergeDrift now uuid (st.assets, 0) (l₁ ++ e :: l₂) := by
      rw [hdec, hcons, hstep]
      linarith
    intro hcontra
    linarith [htele, hdpos, hcontra]

/-- Concrete instance of the amended C4: an extracted record updates an
existing asset of prior amount 100 with amount 50; the written value 150
differs from the merged total 50. -/
theorem c4_written_networth_gap_witness :
    (namedAmountPatch "A" 50).amount = some 50
  ∧ totalNetWorth [demoAsset "A" 100 10] +
      sumExtractedAmounts ([] ++ namedAmountPatch "A" 50 :: []) ≠
      totalNetWorth
        (handleFileUpload "T" "D" (fun _ => "u")
          ⟨[demoAsset "A" 100 10], [], none⟩
          (Except.ok ([] ++ namedAmountPatch "A" 50 :: []))).1.assets := by
  refine ⟨rfl, (c4_written_networth_gap "T" "D" (fun _ => "u")
    ⟨[demoAsset "A" 100 10], [], none⟩ [] [] (namedAmountPatch "A" 50) "A" 0
    (demoAsset "A" 100 10) 50 ?_ ?_ rfl (by decide) (by decide) rfl rfl
    ?_ ?_).2⟩
  · intro x hx
    simp only [List.mem_singleton] at hx
    subst hx
    norm_num [demoAsset]
  · intro p hp q hq
    simp only [List.nil_append, List.mem_singleton] at hp
    subst hp
    simp only [namedAmountPatch, Option.some.injEq] at hq
    subst hq
    norm_num
  · norm_num [demoAsset]
  · norm_num [demoAsset]

/-- C4 counterexample to the claim as stated: the extracted record named A
updates (rather than inserts) the existing asset named A with an amount
(50) differing from the prior amount (0); yet the net-worth value written
for today equals the total net worth recomputed over the post-merge asset
list, because the prior amount of the updated asset was zero. -/
theorem c4_counterexample :
    ([demoAsset "A" 0 0].findIdx? (fun x : Asset => x.name == "A") = some 0)
  ∧ (namedAmountPatch "A" 50).amount = some 50
  ∧ (50 : ℚ) ≠ (demoAsset "A" 0 0).amount
  ∧ totalNetWorth [demoAsset "A" 0 0] +
      sumExtractedAmounts [namedAmountPatch "A" 50] =
      totalNetWorth
        (handleFileUpload "T" "D" (fun _ => "u") ⟨[demoAsset "A" 0 0], [], none⟩
          (Except.ok [namedAmountPatch "A" 50])).1.assets := by
  refine ⟨by decide, rfl, by norm_num [demoAsset], ?_⟩
  have h1 : totalNetWorth [demoAsset "A" 0 0] = 0 := by
    simp [totalNetWorth, demoAsset]
  have h2 : sumExtractedAmounts [namedAmountPatch "A" 50] = 50 := by
    simp [sumExtractedAmounts, namedAmountPatch]
  have h3 : (handleFileUpload "T" "D" (fun _ => "u") ⟨[demoAsset "A" 0 0], [], none⟩
      (Except.ok [namedAmountPatch "A" 50])).1.assets =
      [{ id := "id-" ++ "A", name := "A", category := AssetCategory.fund,
         amount := 50, returnRate := 0, currency := "CNY",
         lastUpdated := "T" }] := by
    show mergeOne "T" "u" [demoAsset "A" 0 0] (namedAmountPatch "A" 50) = _
    rw [mergeOne_named "T" "u" "A" _ _ rfl (by decide),
      mergeNamed_update "T" "u" "A" _ _ 0 (by decide)]
    simp [demoAsset, namedAmountPatch, spreadInto]
  rw [h1, h2, h3]
  simp [totalNetWorth, demoAsset]
